import Mathlib

/-!
# Verification of the nuptechs/kan permission core

A shallow embedding of the permission-resolution and synchronization core of
the NuP-Kan / NuPIdentity monorepo, together with theorems settling the
specification claims about it.

Embedded source files:
* `nupidentity/server/routes/systems.routes.ts` — the registry's resolution
  endpoints (`GET /users/:userId/permissions` in both its map-based and
  SQL-join variants, `GET /users/:userId/systems/:systemId/permissions`,
  `POST /users/:userId/systems/:systemId/check`, `POST /token`) and the
  `POST /:systemId/sync-functions` reconciliation endpoint.
* `server/identitySyncService.ts` — the client-side sync reconciler
  (`syncPermissions`, `syncWithRetry`, `generateHash`).
* `server/microservices/authService.ts` — `AuthService.hasPermission`.

Database rows are modelled as Lean structures and tables as lists; Drizzle
query combinators (`eq`, `and`, `inArray`, `findFirst`, `findMany`) become
list `filter` / `find?` over those lists.  JavaScript `Map` objects are
modelled as insertion-ordered association lists with JS `set` / `delete`
semantics.  Asynchronous I/O boundaries (the HTTP `fetch` of the sync
service, JWT verification) are modelled as explicit parameters.
-/

/-- A row of the `systems` table. -/
structure SystemRow where
  id : String
  name : String
  description : String
  apiUrl : String
  isActive : Bool
deriving DecidableEq

/-- A row of the `functions` table (a capability definition).
`id` is assigned as the composite string `systemId ++ "-" ++ functionKey`
by the sync endpoint. -/
structure Func where
  id : String
  systemId : String
  functionKey : String
  name : String
  category : String
  description : String
  endpoint : String
deriving DecidableEq

/-- A row of the `identity_profiles` table. -/
structure Profile where
  id : String
  name : String
deriving DecidableEq

/-- A row of the `identity_user_profiles` join table. -/
structure UserProfile where
  userId : String
  profileId : String
deriving DecidableEq

/-- A row of the `identity_profile_functions` join table. -/
structure ProfileFunction where
  profileId : String
  functionId : String
  granted : Bool
deriving DecidableEq

/-- A row of the `identity_user_function_overrides` table. -/
structure UserFunctionOverride where
  userId : String
  functionId : String
  granted : Bool
deriving DecidableEq

/-- A row of the `users` table. -/
structure UserRow where
  id : String
  email : String
  name : String
  password : String
  isActive : Bool
deriving DecidableEq

/-- The registry's database state: one list per table. -/
structure Db where
  systems : List SystemRow
  functions : List Func
  profiles : List Profile
  userProfiles : List UserProfile
  profileFunctions : List ProfileFunction
  userFunctionOverrides : List UserFunctionOverride
  users : List UserRow
deriving DecidableEq

/-! ## JavaScript `Map` model

The routes build permission maps with `new Map()`, `map.set`, `map.delete`,
`map.has`, `map.keys()` and `map.values()`.  A JS `Map` is insertion-ordered;
`set` on a present key updates the value in place, on a fresh key it appends.
We model it as an association list. -/

/-- JS `map.set(k, v)`. -/
def jsSet {α : Type} (m : List (String × α)) (k : String) (v : α) :
    List (String × α) :=
  if m.any (fun p => p.1 == k) then
    m.map (fun p => if p.1 == k then (k, v) else p)
  else m ++ [(k, v)]

/-- JS `map.delete(k)` (returning the resulting map). -/
def jsDelete {α : Type} (m : List (String × α)) (k : String) :
    List (String × α) :=
  m.filter (fun p => p.1 != k)

/-- JS `map.has(k)`. -/
def jsHas {α : Type} (m : List (String × α)) (k : String) : Bool :=
  m.any (fun p => p.1 == k)

/-! ## `GET /users/:userId/systems/:systemId/permissions`

Lines 487–599 of the validation routes (both concatenated copies are
identical).  The permission map is keyed by `functionKey` with Boolean
values; profile grants are applied first and user overrides second. -/

/-- Detail entry of the `permissions` array in the response. -/
structure PermDetail where
  functionKey : String
  name : String
  category : String
  endpoint : String
deriving DecidableEq

/-- Response body of the per-system permissions route.  `total = none`
records that the `total` field is absent from the JSON object (the
zero-capability early return does not include it). -/
structure PermsBody where
  userId : String
  systemId : String
  systemName : String
  permissions : List PermDetail
  functionKeys : List String
  total : Option Nat
deriving DecidableEq

/-- Result of the per-system permissions route. -/
inductive GetPermsResult where
  | notFound
  | okBody (body : PermsBody)
deriving DecidableEq

/-- One iteration of the profile-grant loop: the row's `function` relation is
resolved by id; `if (pp.granted && pp.function)` guards the `set`. -/
def profStep (db : Db) (m : List (String × Bool)) (pf : ProfileFunction) :
    List (String × Bool) :=
  match db.functions.find? (fun f => f.id == pf.functionId) with
  | some f => if pf.granted then jsSet m f.functionKey true else m
  | none => m

/-- One iteration of the override loop: a `granted` override force-adds the
key, a non-granted one deletes it. -/
def ovStep (db : Db) (m : List (String × Bool)) (o : UserFunctionOverride) :
    List (String × Bool) :=
  match db.functions.find? (fun f => f.id == o.functionId) with
  | some f =>
    if o.granted then jsSet m f.functionKey true
    else jsDelete m f.functionKey
  | none => m

/-- The `GET /users/:userId/systems/:systemId/permissions` handler. -/
def getSystemPermissions (db : Db) (userId systemId : String) : GetPermsResult :=
  match db.systems.find? (fun s => s.id == systemId) with
  | none => .notFound
  | some system =>
    let systemFunctions := db.functions.filter (fun f => f.systemId == systemId)
    let functionIds := systemFunctions.map (fun f => f.id)
    if functionIds.isEmpty then
      .okBody ⟨userId, systemId, system.name, [], [], none⟩
    else
      let userProfilesData := db.userProfiles.filter (fun up => up.userId == userId)
      let profileIds := userProfilesData.map (fun up => up.profileId)
      let profilePerms := db.profileFunctions.filter
        (fun pf => profileIds.contains pf.profileId && functionIds.contains pf.functionId)
      let overrides := db.userFunctionOverrides.filter
        (fun o => o.userId == userId && functionIds.contains o.functionId)
      let m1 := profilePerms.foldl (profStep db) []
      let m2 := overrides.foldl (ovStep db) m1
      let grantedFunctionKeys := m2.map (fun p => p.1)
      let permissions := (systemFunctions.filter (fun f => jsHas m2 f.functionKey)).map
        (fun f => (⟨f.functionKey, f.name, f.category, f.endpoint⟩ : PermDetail))
      .okBody ⟨userId, systemId, system.name, permissions, grantedFunctionKeys,
        some grantedFunctionKeys.length⟩

/-! ## `POST /users/:userId/systems/:systemId/check` -/

/-- Result of the check route. -/
inductive CheckResult where
  | badRequest
  | ok (granted : Bool) (reason : Option String)
deriving DecidableEq

/-- The `POST /users/:userId/systems/:systemId/check` handler.  A missing
body field and the empty string are both falsy for `if (!functionKey)`. -/
def checkPermission (db : Db) (userId systemId : String)
    (functionKey : Option String) : CheckResult :=
  match functionKey with
  | none => .badRequest
  | some fk =>
    if fk == "" then .badRequest
    else
      match db.functions.find?
          (fun f => f.systemId == systemId && f.functionKey == fk) with
      | none => .ok false (some "Função não encontrada")
      | some fn =>
        let userProfilesData := db.userProfiles.filter (fun up => up.userId == userId)
        let profileIds := userProfilesData.map (fun up => up.profileId)
        let profilePerms := db.profileFunctions.filter
          (fun pf => profileIds.contains pf.profileId && pf.functionId == fn.id)
        match db.userFunctionOverrides.find?
            (fun o => o.userId == userId && o.functionId == fn.id) with
        | some o => .ok o.granted none
        | none => .ok (profilePerms.any (fun pp => pp.granted)) none

/-! ## `GET /users/:userId/permissions`, map-based variant (lines 384–480)

The map is keyed by `function.id` and holds full permission entries; profile
grants with `granted = true` are inserted first, then user overrides
overwrite, then only `granted` entries are kept. -/

/-- Provenance tag stored in each map entry. -/
inductive PermSource where
  | profile
  | override
deriving DecidableEq

/-- An entry of the cross-system permission map. -/
structure PermEntry where
  functionId : String
  functionKey : String
  name : String
  category : String
  systemId : String
  systemName : String
  granted : Bool
  source : PermSource
deriving DecidableEq

/-- Profile phase of the cross-system route.  The `function` and `system`
relations are resolved by id; a dangling reference would make the JS code
throw, which the theorems exclude via referential-integrity hypotheses. -/
def allProfStep (db : Db) (m : List (String × PermEntry)) (pf : ProfileFunction) :
    List (String × PermEntry) :=
  match db.functions.find? (fun f => f.id == pf.functionId) with
  | some f =>
    if pf.granted then
      match db.systems.find? (fun s => s.id == f.systemId) with
      | some s =>
        jsSet m f.id ⟨f.id, f.functionKey, f.name, f.category, s.id, s.name, true, .profile⟩
      | none => m
    else m
  | none => m

/-- Override phase of the cross-system route: the entry is overwritten with
the override's `granted` flag. -/
def allOvStep (db : Db) (m : List (String × PermEntry)) (o : UserFunctionOverride) :
    List (String × PermEntry) :=
  match db.functions.find? (fun f => f.id == o.functionId) with
  | some f =>
    match db.systems.find? (fun s => s.id == f.systemId) with
    | some s =>
      jsSet m f.id ⟨f.id, f.functionKey, f.name, f.category, s.id, s.name, o.granted, .override⟩
    | none => m
  | none => m

/-- The map-based `GET /users/:userId/permissions` handler (returning the
`permissions` array of the response). -/
def getUserPermissionsMapBased (db : Db) (userId : String) : List PermEntry :=
  let userProfilesData := db.userProfiles.filter (fun up => up.userId == userId)
  let profFuncRows := userProfilesData.flatMap (fun up =>
    match db.profiles.find? (fun p => p.id == up.profileId) with
    | some _ => db.profileFunctions.filter (fun pf => pf.profileId == up.profileId)
    | none => [])
  let overrides := db.userFunctionOverrides.filter (fun o => o.userId == userId)
  let m1 := profFuncRows.foldl (allProfStep db) []
  let m2 := overrides.foldl (allOvStep db) m1
  (m2.map (fun p => p.2)).filter (fun e => e.granted)

/-! ## `GET /users/:userId/permissions`, SQL-join variant (lines 738–782)

`SELECT DISTINCT ... FROM identity_user_profiles up JOIN
identity_profile_functions pf ON pf.profile_id = up.profile_id JOIN functions
f ON f.id = pf.function_id JOIN systems s ON s.id = f.system_id WHERE
up.user_id = userId AND pf.granted = true`.  The `DISTINCT` / `ORDER BY`
clauses only affect duplication and order; the theorems compare the results
as sets of function ids, so the raw joined row list is kept. -/

/-- A row of the SQL variant's result. -/
structure SqlPermRow where
  functionId : String
  functionKey : String
  name : String
  category : String
  endpoint : String
  systemId : String
  systemName : String
deriving DecidableEq

/-- The SQL-join `GET /users/:userId/permissions` handler. -/
def getUserPermissionsSql (db : Db) (userId : String) : List SqlPermRow :=
  (db.userProfiles.filter (fun up => up.userId == userId)).flatMap (fun up =>
    (db.profileFunctions.filter
        (fun pf => pf.profileId == up.profileId && pf.granted)).filterMap (fun pf =>
      match db.functions.find? (fun f => f.id == pf.functionId) with
      | some f =>
        match db.systems.find? (fun s => s.id == f.systemId) with
        | some s => some ⟨f.id, f.functionKey, f.name, f.category, f.endpoint, s.id, s.name⟩
        | none => none
      | none => none))

/-! ## `POST /systems/:systemId/sync-functions` (lines 169–285) -/

/-- A manifest capability entry (`functions` array element). -/
structure ManifestFunc where
  key : String
  name : String
  category : String
  description : String
  endpoint : String
deriving DecidableEq

/-- The `summary` object of the sync response. -/
structure SyncSummary where
  total : Nat
  created : Nat
  updated : Nat
  unchanged : Nat
  removed : Nat
deriving DecidableEq

/-- The composite function id assigned by the sync endpoint. -/
def mkFuncId (systemId key : String) : String := systemId ++ "-" ++ key

/-- Outcome of `JSON.parse` plus property access on the manifest object.
`systemId = none` models a missing `system` object or missing `system.id`;
`functions = none` models a missing or non-array `functions` property. -/
structure ParsedManifest where
  systemId : Option String
  functions : Option (List ManifestFunc)
deriving DecidableEq

/-- Environment of one `syncPermissions` call: the manifest file on disk and
the remote registry's behaviour.  `parsed = none` models a `JSON.parse`
throw; `serverSummary = none` models an unreachable registry or a non-2xx
response. -/
structure SyncEnv where
  fileExists : Bool
  fileContent : String
  parsed : Option ParsedManifest
  serverSummary : Option SyncSummary
deriving DecidableEq

/-- The `SyncResult` record returned by the service (`timestamp` omitted). -/
structure SyncResult where
  success : Bool
  summary : Option SyncSummary
  error : Option String
deriving DecidableEq

/-- `syncPermissions` outcome, instrumented with the number of `fetch` calls
made and the resulting `lastSyncHash` field. -/
structure SyncOutcome where
  result : SyncResult
  networkCalls : Nat
  lastSyncHash : String
deriving DecidableEq

/-- JS `ToInt32` (the `hash & hash` coercion). -/
def toInt32 (n : Int) : Int := (n + 2 ^ 31) % 2 ^ 32 - 2 ^ 31

/-- One step of `generateHash`: `hash = ((hash << 5) - hash) + char` followed
by `hash = hash & hash`.  `<<` already truncates to a 32-bit integer. -/
def hashStep (h : Int) (c : Nat) : Int := toInt32 (toInt32 (h * 32) - h + c)

/-- `IdentitySyncService.generateHash`: the rolling content hash, rendered
with `toString`.  `charCodeAt` yields UTF-16 code units, which agree with
code points on the ASCII manifests at hand. -/
def generateHash (content : String) : String :=
  toString (content.data.foldl (fun h c => hashStep h c.toNat) 0)

/-- `IdentitySyncService.syncPermissions` as a function of its environment
and the current `lastSyncHash` field.  Every throw inside the method body is
caught by its own `try/catch` and converted to a failed `SyncResult`; the
exact error strings of the parse and HTTP failures are irrelevant to the
claims and are fixed placeholders here. -/
def syncPermissions (env : SyncEnv) (lastSyncHash : String) : SyncOutcome :=
  if !env.fileExists then
    ⟨⟨false, none, some "Arquivo permissions.json não encontrado"⟩, 0, lastSyncHash⟩
  else
    let currentHash := generateHash env.fileContent
    if currentHash == lastSyncHash then
      ⟨⟨true, none, none⟩, 0, lastSyncHash⟩
    else
      match env.parsed with
      | none => ⟨⟨false, none, some "JSON.parse error"⟩, 0, lastSyncHash⟩
      | some m =>
        match m.systemId with
        | none =>
          ⟨⟨false, none, some "permissions.json deve conter system.id"⟩, 0, lastSyncHash⟩
        | some _ =>
          match m.functions with
          | none =>
            ⟨⟨false, none, some "permissions.json deve conter array functions"⟩, 0,
              lastSyncHash⟩
          | some _ =>
            match env.serverSummary with
            | none => ⟨⟨false, none, some "Erro HTTP"⟩, 1, lastSyncHash⟩
            | some summary => ⟨⟨true, some summary, none⟩, 1, currentHash⟩

/-- Outcome of `syncWithRetry`, instrumented with the number of
`syncPermissions` invocations (`attempts`) and total `fetch` calls. -/
structure RetryOutcome where
  result : SyncResult
  attempts : Nat
  networkCalls : Nat
deriving DecidableEq

/-- The attempt loop of `syncWithRetry`: a successful result returns
immediately; otherwise the loop sleeps and retries, and after the final
failed attempt the generic maximum-attempts error is returned.
`syncPermissions` never throws (it catches internally), so the loop's own
`catch` branch is unreachable. -/
def syncAttempts (env : SyncEnv) (lastSyncHash : String) : Nat → RetryOutcome
  | 0 => ⟨⟨false, none, some "Máximo de tentativas excedido"⟩, 0, 0⟩
  | n + 1 =>
    let o := syncPermissions env lastSyncHash
    if o.result.success then ⟨o.result, 1, o.networkCalls⟩
    else
      let r := syncAttempts env lastSyncHash n
      ⟨r.result, r.attempts + 1, o.networkCalls + r.networkCalls⟩

/-- `this.retryAttempts`. -/
def retryAttempts : Nat := 3

/-- `IdentitySyncService.syncWithRetry`. -/
def syncWithRetry (env : SyncEnv) (lastSyncHash : String) : RetryOutcome :=
  syncAttempts env lastSyncHash retryAttempts

/-! ## `AuthService.hasPermission` (`server/microservices/authService.ts`) -/

/-- A team membership of the auth context. -/
structure TeamMembership where
  id : String
  name : String
  role : String
deriving DecidableEq

/-- The `AuthContext` record (`lastActivity : Date` omitted: wall-clock
timestamps are outside the embedding and unused by the checks). -/
structure AuthContext where
  userId : String
  userName : String
  userEmail : String
  permissions : List String
  permissionCategories : List String
  profileId : String
  profileName : String
  teams : List TeamMembership
  sessionId : String
  isAuthenticated : Bool
deriving DecidableEq

/-- The `string | string[]` argument of `hasPermission`. -/
inductive RequiredPermissions where
  | one (p : String)
  | many (ps : List String)
deriving DecidableEq

/-- `Array.isArray(x) ? x : [x]`. -/
def requiredList : RequiredPermissions → List String
  | .one p => [p]
  | .many ps => ps

/-- `AuthService.hasPermission`. -/
def hasPermission (ctx : AuthContext) (req : RequiredPermissions) : Bool :=
  if !ctx.isAuthenticated then false
  else (requiredList req).all (fun p => ctx.permissions.contains p)

/-! ## `POST /validate/token` (lines 339–378; both copies identical) -/

/-- The user row as the JSON object the route serializes: its own enumerable
properties in declaration order. -/
def serializeUser (u : UserRow) : List (String × String) :=
  [("id", u.id), ("email", u.email), ("name", u.name), ("password", u.password),
    ("isActive", if u.isActive then "true" else "false")]

/-- Response of the token validation route. -/
inductive TokenResponse where
  | badRequest
  | unauthorized
  | valid (user : List (String × String))
deriving DecidableEq

/-- The `POST /validate/token` handler.  `verify` models `verifyToken`
(external `auth/jwt` module): `none` is a throw, `some uid` a payload whose
`userId` is `uid`.  The rest-destructuring
`const  \x7b password: _, ...userWithoutPassword \x7d = user` keeps every own
property except `password`. -/
def validateTokenRoute (db : Db) (verify : String → Option String)
    (token : Option String) : TokenResponse :=
  match token with
  | none => .badRequest
  | some t =>
    if t == "" then .badRequest
    else
      match verify t with
      | none => .unauthorized
      | some uid =>
        match db.users.find? (fun u => u.id == uid) with
        | none => .unauthorized
        | some user =>
          if !user.isActive then .unauthorized
          else .valid ((serializeUser user).filter (fun kv => kv.1 != "password"))

/-! ## Registry well-formedness

Invariants maintained by the registry for the tables the claims touch:
function row ids are unique (the primary key), every function id is the
composite `systemId ++ "-" ++ functionKey` assigned at creation by the sync
endpoint, and there is at most one override row per (user, capability) pair
— §3's "Capability identity is (system id, key)" and the unique override
join. -/

structure DbWF (db : Db) : Prop where
  funcIdsNodup : (db.functions.map (fun f => f.id)).Nodup
  funcIdFormat : ∀ f ∈ db.functions, f.id = mkFuncId f.systemId f.functionKey
  overridePairsNodup :
    (db.userFunctionOverrides.map (fun o => (o.userId, o.functionId))).Nodup

/-! ## Override-fold lemmas for the per-system route -/

/-- The key the override loop would touch: the `functionKey` of the override's
joined function, if the join succeeds. -/
def ovKey (db : Db) (o : UserFunctionOverride) : Option String :=
  (db.functions.find? (fun f => f.id == o.functionId)).map (fun f => f.functionKey)

/-- Concrete database for the C1 witness: the profile grants `f1`, the
override revokes it. -/
def c1Func : Func := ⟨"s1-f1", "s1", "f1", "Feature One", "", "", ""⟩

def c1Override : UserFunctionOverride := ⟨"u1", "s1-f1", false⟩

def c1Db : Db :=
  ⟨[⟨"s1", "SysOne", "", "", true⟩], [c1Func], [⟨"p1", "Admin"⟩], [⟨"u1", "p1"⟩],
    [⟨"p1", "s1-f1", true⟩], [c1Override], []⟩

/-- Concrete data for the C10 witness. -/
def c10User : UserRow := ⟨"u1", "a@b.c", "Ada", "secret-hash", true⟩

def c10Db : Db := ⟨[], [], [], [], [], [], [c10User]⟩

/-- Token verifier for the C10 witness: accepts exactly the token `tok`. -/
def c10Verify : String → Option String :=
  fun t => if t == "tok" then some "u1" else none

/-- Concrete database for the C8 witness: one system with one capability,
and a user id that appears nowhere. -/
def c8Db : Db :=
  ⟨[⟨"s1", "SysOne", "", "", true⟩], [c1Func], [], [], [], [], []⟩

/-- Database with a known system that has zero stored capabilities. -/
def c7Db : Db := ⟨[⟨"s1", "Sys", "", "", true⟩], [], [], [], [], [], []⟩

/-- Environment for the C4 witness and counterexample: an existing, empty
manifest file whose rolling hash is `"0"`. -/
def c4Env : SyncEnv := ⟨true, "", none, none⟩

/-- The local-validation failure conditions of `syncPermissions`: a manifest
that does not parse, has no `system.id`, or no `functions` array. -/
def manifestInvalid : Option ParsedManifest → Bool
  | none => true
  | some m => m.systemId.isNone || m.functions.isNone

/-- Environment for the C5 counterexample and witness: the manifest file is
missing. -/
def c5Env : SyncEnv := ⟨false, "", none, none⟩

/-! ## Claim C6: the 64-capability re-sync scenario -/

/-- The row-level effect of the update loop: the (unique) manifest entry
whose target id matches the row is applied to it. -/
def updFun (systemId : String) (l : List ManifestFunc) (g : Func) : Func :=
  match l.find? (fun mf => g.id == mkFuncId systemId mf.key) with
  | some mf =>
    { g with
      name := mf.name
      category := mf.category
      description := mf.description
      endpoint := mf.endpoint }
  | none => g

/-- A profile-function row contributes a granted entry in the map-based
cross-system route exactly when it is granted and both its `function` and
`system` joins succeed. -/
def profWrites (db : Db) (pf : ProfileFunction) : Bool :=
  pf.granted &&
    (match db.functions.find? (fun f => f.id == pf.functionId) with
      | some f => (db.systems.find? (fun s => s.id == f.systemId)).isSome
      | none => false)

/-- Database for the C2 counterexample: user `u1` has no profiles but holds
a granted override on capability `s1-f1`. -/
def c2Db : Db :=
  ⟨[⟨"s1", "Sys", "", "", true⟩], [⟨"s1-f1", "s1", "f1", "F1", "", "", ""⟩],
    [], [], [], [⟨"u1", "s1-f1", true⟩], []⟩

/-- Database for the C2 witness: a pure profile-grant user with no
overrides. -/
def c2AgreeDb : Db :=
  ⟨[⟨"s1", "Sys", "", "", true⟩], [⟨"s1-f1", "s1", "f1", "F1", "", "", ""⟩],
    [⟨"p1", "Admin"⟩], [⟨"u1", "p1"⟩], [⟨"p1", "s1-f1", true⟩], [], []⟩

set_option maxRecDepth 10000

/-! ## Association-list lemmas for the JS `Map` model -/

theorem jsHas_iff {α : Type} {m : List (String × α)} {k : String} :
    jsHas m k = true ↔ ∃ p ∈ m, p.1 = k := by
  simp [jsHas, List.any_eq_true]

theorem mem_map_fst_iff_jsHas {α : Type} {m : List (String × α)} {k : String} :
    k ∈ m.map Prod.fst ↔ jsHas m k = true := by
  rw [jsHas_iff]
  constructor
  · intro h
    rw [List.mem_map] at h
    obtain ⟨p, hp, hpk⟩ := h
    exact ⟨p, hp, hpk⟩
  · rintro ⟨p, hp, hpk⟩
    rw [List.mem_map]
    exact ⟨p, hp, hpk⟩

theorem jsHas_jsSet_self {α : Type} (m : List (String × α)) (k : String) (v : α) :
    jsHas (jsSet m k v) k = true := by
  unfold jsSet
  by_cases h : m.any (fun p => p.1 == k)
  · rw [if_pos h]
    rw [jsHas_iff]
    rw [List.any_eq_true] at h
    obtain ⟨p, hp, hpk⟩ := h
    refine ⟨(k, v), ?_, rfl⟩
    rw [List.mem_map]
    exact ⟨p, hp, by simp [hpk]⟩
  · rw [if_neg h]
    rw [jsHas_iff]
    exact ⟨(k, v), by simp, rfl⟩

theorem jsHas_jsSet_ne {α : Type} (m : List (String × α)) (k k' : String) (v : α)
    (h : k' ≠ k) : jsHas (jsSet m k v) k' = true ↔ jsHas m k' = true := by
  unfold jsSet
  by_cases hc : m.any (fun p => p.1 == k)
  · rw [if_pos hc]
    rw [jsHas_iff, jsHas_iff]
    constructor
    · rintro ⟨q, hq, hqk⟩
      rw [List.mem_map] at hq
      obtain ⟨p, hp, hpq⟩ := hq
      by_cases hpk : p.1 == k
      · exfalso
        rw [if_pos hpk] at hpq
        rw [← hpq] at hqk
        exact h hqk.symm
      · rw [if_neg hpk] at hpq
        exact ⟨p, hp, by rw [hpq]; exact hqk⟩
    · rintro ⟨p, hp, hpk⟩
      refine ⟨p, ?_, hpk⟩
      rw [List.mem_map]
      refine ⟨p, hp, ?_⟩
      have hne : (p.1 == k) = false := by
        rw [hpk]
        simp [h]
      rw [if_neg (by simp [hne])]
  · rw [if_neg hc]
    rw [jsHas_iff, jsHas_iff]
    constructor
    · rintro ⟨p, hp, hpk⟩
      rw [List.mem_append] at hp
      rcases hp with hp | hp
      · exact ⟨p, hp, hpk⟩
      · exfalso
        simp at hp
        rw [hp] at hpk
        exact h hpk.symm
    · rintro ⟨p, hp, hpk⟩
      exact ⟨p, by rw [List.mem_append]; exact Or.inl hp, hpk⟩

theorem jsHas_jsDelete_self {α : Type} (m : List (String × α)) (k : String) :
    jsHas (jsDelete m k) k = false := by
  unfold jsDelete jsHas
  simp [List.any_eq_true]

theorem jsHas_jsDelete_ne {α : Type} (m : List (String × α)) (k k' : String)
    (h : k' ≠ k) : jsHas (jsDelete m k) k' = true ↔ jsHas m k' = true := by
  unfold jsDelete
  rw [jsHas_iff, jsHas_iff]
  constructor
  · rintro ⟨p, hp, hpk⟩
    exact ⟨p, (List.mem_filter.mp hp).1, hpk⟩
  · rintro ⟨p, hp, hpk⟩
    refine ⟨p, List.mem_filter.mpr ⟨hp, ?_⟩, hpk⟩
    simp [hpk, h]

theorem jsSet_forall {α : Type} {Q : String × α → Prop} {m : List (String × α)}
    {k : String} {v : α} (hm : ∀ p ∈ m, Q p) (hv : Q (k, v)) :
    ∀ p ∈ jsSet m k v, Q p := by
  intro p hp
  unfold jsSet at hp
  by_cases hc : m.any (fun q => q.1 == k)
  · rw [if_pos hc] at hp
    rw [List.mem_map] at hp
    obtain ⟨q, hq, hqp⟩ := hp
    by_cases hqk : q.1 == k
    · rw [if_pos hqk] at hqp
      rw [← hqp]
      exact hv
    · rw [if_neg hqk] at hqp
      rw [← hqp]
      exact hm q hq
  · rw [if_neg hc] at hp
    rw [List.mem_append] at hp
    rcases hp with hp | hp
    · exact hm p hp
    · simp at hp
      rw [hp]
      exact hv

/-! ## Generic list helpers -/

theorem find?_eq_some_of_unique {α : Type} {p : α → Bool} {l : List α} {a : α}
    (ha : a ∈ l) (hpa : p a = true) (huniq : ∀ b ∈ l, p b = true → b = a) :
    l.find? p = some a := by
  cases hf : l.find? p with
  | none =>
    rw [List.find?_eq_none] at hf
    exact absurd hpa (hf a ha)
  | some b =>
    rw [huniq b (List.mem_of_find?_eq_some hf) (List.find?_some hf)]

theorem DbWF.funcInj {db : Db} (h : DbWF db) {f : Func} (hf : f ∈ db.functions)
    {g : Func} (hg : g ∈ db.functions) (he : f.id = g.id) : f = g :=
  List.inj_on_of_nodup_map h.funcIdsNodup hf hg he

theorem DbWF.sysKeyInj {db : Db} (h : DbWF db) {sid : String} {f g : Func}
    (hf : f ∈ db.functions) (hg : g ∈ db.functions) (hfs : f.systemId = sid)
    (hgs : g.systemId = sid) (hk : f.functionKey = g.functionKey) : f = g := by
  apply h.funcInj hf hg
  rw [h.funcIdFormat f hf, h.funcIdFormat g hg, hfs, hgs, hk]

theorem DbWF.ovInj {db : Db} (h : DbWF db) {o o' : UserFunctionOverride}
    (ho : o ∈ db.userFunctionOverrides) (ho' : o' ∈ db.userFunctionOverrides)
    (hu : o.userId = o'.userId) (hf : o.functionId = o'.functionId) : o = o' := by
  have := List.inj_on_of_nodup_map h.overridePairsNodup ho ho'
    (by rw [hu, hf])
  exact this

theorem jsHas_ovStep_ne (db : Db) (m : List (String × Bool)) (o : UserFunctionOverride)
    (k : String) (h : ovKey db o ≠ some k) :
    jsHas (ovStep db m o) k = jsHas m k := by
  unfold ovStep
  cases hf : db.functions.find? (fun f => f.id == o.functionId) with
  | none => rfl
  | some f =>
    have hkne : f.functionKey ≠ k := by
      intro he
      apply h
      unfold ovKey
      rw [hf]
      simp [he]
    cases hgr : o.granted with
    | true =>
      simp only [if_pos rfl]
      rw [Bool.eq_iff_iff]
      exact jsHas_jsSet_ne m f.functionKey k true (Ne.symm hkne)
    | false =>
      simp only [Bool.false_eq_true, if_false]
      rw [Bool.eq_iff_iff]
      exact jsHas_jsDelete_ne m f.functionKey k (Ne.symm hkne)

theorem jsHas_ovStep_found (db : Db) (m : List (String × Bool))
    (o : UserFunctionOverride) (C : Func)
    (hf : db.functions.find? (fun f => f.id == o.functionId) = some C) :
    jsHas (ovStep db m o) C.functionKey = o.granted := by
  unfold ovStep
  rw [hf]
  cases hgr : o.granted with
  | true => simp [jsHas_jsSet_self]
  | false => simp [jsHas_jsDelete_self]

theorem foldl_ovStep_preserve (db : Db) (k : String) (l : List UserFunctionOverride) :
    ∀ m, (∀ o ∈ l, ovKey db o ≠ some k) →
      jsHas (l.foldl (ovStep db) m) k = jsHas m k := by
  induction l with
  | nil =>
    intro m _
    rfl
  | cons o t ih =>
    intro m h
    rw [List.foldl_cons,
      ih (ovStep db m o) (fun o' ho' => h o' (List.mem_cons_of_mem _ ho')),
      jsHas_ovStep_ne db m o k (h o (List.mem_cons_self _ _))]

/-- C1: Override dominance.  For a user `u` and a capability `C` of system
`sid` for which an override row `o = (u, C)` exists, the
`GET /users/:userId/systems/:systemId/permissions` endpoint reports
`C.functionKey` as granted exactly when `o.granted` is true, and the
`POST /users/:userId/systems/:systemId/check` endpoint answers
`granted = o.granted`, regardless of any profile grant state. -/
theorem override_dominance (db : Db) (u sid : String) (S : SystemRow) (C : Func)
    (o : UserFunctionOverride) (hwf : DbWF db)
    (hS : db.systems.find? (fun s => s.id == sid) = some S)
    (hC : C ∈ db.functions) (hCs : C.systemId = sid) (hk : C.functionKey ≠ "")
    (ho : o ∈ db.userFunctionOverrides) (hou : o.userId = u)
    (hof : o.functionId = C.id) :
    (∃ b, getSystemPermissions db u sid = .okBody b ∧
      (C.functionKey ∈ b.functionKeys ↔ o.granted = true)) ∧
    checkPermission db u sid (some C.functionKey) = .ok o.granted none := by
  have hCfilter : C ∈ db.functions.filter (fun f => f.systemId == sid) :=
    List.mem_filter.mpr ⟨hC, by simp [hCs]⟩
  have hCid : C.id ∈ (db.functions.filter (fun f => f.systemId == sid)).map
      (fun f => f.id) :=
    List.mem_map.mpr ⟨C, hCfilter, rfl⟩
  have hfindC : db.functions.find? (fun f => f.id == C.id) = some C := by
    apply find?_eq_some_of_unique hC (by simp)
    intro b hb hbp
    exact hwf.funcInj hb hC (by simpa using hbp)
  constructor
  · -- the permissions endpoint
    have hne : ((db.functions.filter (fun f => f.systemId == sid)).map
        (fun f => f.id)).isEmpty = false := by
      rw [List.isEmpty_eq_false]
      intro hnil
      rw [hnil] at hCid
      exact absurd hCid (List.not_mem_nil _)
    simp only [getSystemPermissions, hS, hne, Bool.false_eq_true, if_false]
    refine ⟨_, rfl, ?_⟩
    rw [mem_map_fst_iff_jsHas]
    have hoin : o ∈ db.userFunctionOverrides.filter
        (fun o' => o'.userId == u && ((db.functions.filter
          (fun f => f.systemId == sid)).map (fun f => f.id)).contains o'.functionId) := by
      refine List.mem_filter.mpr ⟨ho, ?_⟩
      simp only [Bool.and_eq_true, beq_iff_eq]
      refine ⟨hou, ?_⟩
      rw [hof]
      simpa using hCid
    obtain ⟨l1, l2, hsplit⟩ := List.append_of_mem hoin
    have hnd : (db.userFunctionOverrides.filter
        (fun o' => o'.userId == u && ((db.functions.filter
          (fun f => f.systemId == sid)).map (fun f => f.id)).contains o'.functionId)).Nodup :=
      (List.Nodup.of_map _ hwf.overridePairsNodup).filter _
    have honl2 : o ∉ l2 := by
      rw [hsplit, List.nodup_append] at hnd
      exact (List.nodup_cons.mp hnd.2.1).1
    rw [hsplit, List.foldl_append, List.foldl_cons]
    rw [foldl_ovStep_preserve db C.functionKey l2 _ ?_]
    · rw [jsHas_ovStep_found db _ o C (by rw [hof]; exact hfindC)]
    · intro o' ho' hkey
      unfold ovKey at hkey
      cases hf' : db.functions.find? (fun f => f.id == o'.functionId) with
      | none =>
        rw [hf'] at hkey
        cases hkey
      | some f' =>
        rw [hf'] at hkey
        simp only [Option.map_some', Option.some.injEq] at hkey
        have hf'mem : f' ∈ db.functions := List.mem_of_find?_eq_some hf'
        have hf'id : f'.id = o'.functionId := by simpa using List.find?_some hf'
        have ho'full : o' ∈ db.userFunctionOverrides.filter
            (fun o'' => o''.userId == u && ((db.functions.filter
              (fun f => f.systemId == sid)).map (fun f => f.id)).contains o''.functionId) := by
          rw [hsplit]
          exact List.mem_append.mpr (Or.inr (List.mem_cons_of_mem _ ho'))
        have hp := (List.mem_filter.mp ho'full).2
        simp only [Bool.and_eq_true, beq_iff_eq] at hp
        have hp2 : o'.functionId ∈ (db.functions.filter
            (fun f => f.systemId == sid)).map (fun f => f.id) := by
          simpa using hp.2
        obtain ⟨g, hg, hgid⟩ := List.mem_map.mp hp2
        have hgmem : g ∈ db.functions := (List.mem_filter.mp hg).1
        have hgsid : g.systemId = sid := by simpa using (List.mem_filter.mp hg).2
        have hfg : f' = g := hwf.funcInj hf'mem hgmem (by rw [hf'id, hgid])
        have hf'sid : f'.systemId = sid := by
          rw [hfg]
          exact hgsid
        have hfC : f' = C := hwf.sysKeyInj hf'mem hC hf'sid hCs hkey
        have ho'db : o' ∈ db.userFunctionOverrides := (List.mem_filter.mp ho'full).1
        have ho'o : o' = o := by
          apply hwf.ovInj ho'db ho
          · rw [hp.1, hou]
          · rw [hof]
            rw [← hfC]
            exact hf'id.symm
        exact honl2 (ho'o ▸ ho')
  · -- the check endpoint
    have hkb : (C.functionKey == "") = false := by simp [hk]
    have hfind2 : db.functions.find?
        (fun f => f.systemId == sid && f.functionKey == C.functionKey) = some C := by
      apply find?_eq_some_of_unique hC (by simp [hCs])
      intro b hb hbp
      simp only [Bool.and_eq_true, beq_iff_eq] at hbp
      exact hwf.sysKeyInj hb hC hbp.1 hCs hbp.2
    have hfindo : db.userFunctionOverrides.find?
        (fun o' => o'.userId == u && o'.functionId == C.id) = some o := by
      apply find?_eq_some_of_unique ho (by simp [hou, hof])
      intro b hb hbp
      simp only [Bool.and_eq_true, beq_iff_eq] at hbp
      apply hwf.ovInj hb ho
      · rw [hbp.1, hou]
      · rw [hbp.2, hof]
    simp only [checkPermission, hkb, Bool.false_eq_true, if_false, hfind2, hfindo]

/-- Witness for C1: at `c1Db` the override (granted = false) dominates the
profile grant in both endpoints. -/
theorem override_dominance_witness :
    (∃ b, getSystemPermissions c1Db "u1" "s1" = .okBody b ∧
      ("f1" ∈ b.functionKeys ↔ (false = true))) ∧
    checkPermission c1Db "u1" "s1" (some "f1") = .ok false none :=
  override_dominance c1Db "u1" "s1" ⟨"s1", "SysOne", "", "", true⟩ c1Func c1Override
    ⟨by decide, by decide, by decide⟩ (by decide) (by decide) (by decide) (by decide)
    (by decide) (by decide) (by decide)

/-- C9: `AuthService.hasPermission` returns true exactly when the context is
authenticated and every required capability name is in the context's granted
list (conjunction over one-or-many requirements); in particular it is false
for every unauthenticated context. -/
theorem hasPermission_conjunction (ctx : AuthContext) (req : RequiredPermissions) :
    hasPermission ctx req = true ↔
      (ctx.isAuthenticated = true ∧ ∀ p ∈ requiredList req, p ∈ ctx.permissions) := by
  unfold hasPermission
  cases h : ctx.isAuthenticated with
  | false => simp [h]
  | true => simp [h, List.all_eq_true]

/-- C10: whenever `POST /validate/token` answers `valid: true`, the
serialized user object in the response has no `password` field. -/
theorem token_response_strips_password (db : Db) (verify : String → Option String)
    (token : Option String) (j : List (String × String))
    (h : validateTokenRoute db verify token = .valid j) :
    "password" ∉ j.map Prod.fst := by
  unfold validateTokenRoute at h
  split at h
  · exact TokenResponse.noConfusion h
  · split at h
    · exact TokenResponse.noConfusion h
    · split at h
      · exact TokenResponse.noConfusion h
      · split at h
        · exact TokenResponse.noConfusion h
        · split at h
          · exact TokenResponse.noConfusion h
          · injection h with hj
            rw [← hj]
            intro hmem
            rw [List.mem_map] at hmem
            obtain ⟨kv, hkv, hkey⟩ := hmem
            have hfil := (List.mem_filter.mp hkv).2
            simp at hfil
            exact hfil hkey

/-- Witness for C10: a concrete valid token yields a user object without a
`password` key. -/
theorem token_response_strips_password_witness :
    "password" ∉ ((serializeUser c10User).filter
      (fun kv => kv.1 != "password")).map Prod.fst :=
  token_response_strips_password c10Db c10Verify (some "tok") _ (by decide)

/-- C8: Default deny.  A user with no profile assignments and no overrides —
in particular a user id unknown to the registry — resolves to an empty
granted set on the per-system permissions endpoint, as a success response,
not an error. -/
theorem default_deny (db : Db) (u sid : String) (S : SystemRow)
    (hS : db.systems.find? (fun s => s.id == sid) = some S)
    (hnp : ∀ up ∈ db.userProfiles, up.userId ≠ u)
    (hno : ∀ o ∈ db.userFunctionOverrides, o.userId ≠ u) :
    ∃ b, getSystemPermissions db u sid = .okBody b ∧
      b.permissions = [] ∧ b.functionKeys = [] := by
  by_cases hemp : ((db.functions.filter (fun f => f.systemId == sid)).map
      (fun f => f.id)).isEmpty = true
  · refine ⟨⟨u, sid, S.name, [], [], none⟩, ?_, rfl, rfl⟩
    simp only [getSystemPermissions, hS, hemp, if_true]
  · have hemp' : ((db.functions.filter (fun f => f.systemId == sid)).map
        (fun f => f.id)).isEmpty = false := by
      simpa using hemp
    have hup : db.userProfiles.filter (fun up => up.userId == u) = [] := by
      rw [List.filter_eq_nil_iff]
      intro up hmem
      simp [hnp up hmem]
    have hov : db.userFunctionOverrides.filter
        (fun o => o.userId == u && ((db.functions.filter
          (fun f => f.systemId == sid)).map (fun f => f.id)).contains o.functionId) = [] := by
      rw [List.filter_eq_nil_iff]
      intro o hmem
      simp [hno o hmem]
    refine ⟨⟨u, sid, S.name, [], [], some 0⟩, ?_, rfl, rfl⟩
    simp only [getSystemPermissions, hS, hemp', Bool.false_eq_true, if_false, hup, hov,
      List.map_nil, List.contains_nil, Bool.false_and, List.filter_false, List.foldl_nil,
      List.length_nil, jsHas, List.any_nil, List.map_eq_nil_iff]

/-- Witness for C8: the unknown user `ghost` resolves to an empty granted
set on a system that does have capabilities. -/
theorem default_deny_witness :
    ∃ b, getSystemPermissions c8Db "ghost" "s1" = .okBody b ∧
      b.permissions = [] ∧ b.functionKeys = [] :=
  default_deny c8Db "ghost" "s1" ⟨"s1", "SysOne", "", "", true⟩ (by decide)
    (by decide) (by decide)

/-- C7 (amended): an unknown `systemId` yields the distinguishable 404
response; a known system yields a body carrying `userId`, `systemId`,
`systemName`, `permissions` and `functionKeys`, with `total` present exactly
when the system has at least one stored capability (the zero-capability
early return omits `total`). -/
theorem system_permissions_response_shape (db : Db) (u sid : String) :
    (db.systems.find? (fun s => s.id == sid) = none →
      getSystemPermissions db u sid = .notFound) ∧
    ∀ S, db.systems.find? (fun s => s.id == sid) = some S →
      ∃ b, getSystemPermissions db u sid = .okBody b ∧
        b.userId = u ∧ b.systemId = sid ∧ b.systemName = S.name ∧
        (db.functions.filter (fun f => f.systemId == sid) = [] → b.total = none) ∧
        (db.functions.filter (fun f => f.systemId == sid) ≠ [] →
          b.total = some b.functionKeys.length) := by
  constructor
  · intro h
    simp only [getSystemPermissions, h]
  · intro S hS
    by_cases hemp : db.functions.filter (fun f => f.systemId == sid) = []
    · have he : ((db.functions.filter (fun f => f.systemId == sid)).map
          (fun f => f.id)).isEmpty = true := by
        rw [hemp]
        rfl
      refine ⟨⟨u, sid, S.name, [], [], none⟩, ?_, rfl, rfl, rfl, fun _ => rfl,
        fun hne => absurd hemp hne⟩
      simp only [getSystemPermissions, hS, he, if_true]
    · have he : ((db.functions.filter (fun f => f.systemId == sid)).map
          (fun f => f.id)).isEmpty = false := by
        rw [List.isEmpty_eq_false]
        intro hnil
        exact hemp (List.map_eq_nil_iff.mp hnil)
      rcases hgp : getSystemPermissions db u sid with _ | b
      · exfalso
        simp only [getSystemPermissions, hS, he, Bool.false_eq_true, if_false] at hgp
        exact GetPermsResult.noConfusion hgp
      · refine ⟨b, rfl, ?_, ?_, ?_, ?_, ?_⟩ <;>
          simp only [getSystemPermissions, hS, he, Bool.false_eq_true, if_false] at hgp <;>
          injection hgp with hb <;> subst hb
        · rfl
        · rfl
        · rfl
        · intro h0
          exact absurd h0 hemp
        · intro _
          rfl

/-- Counterexample for C7 as stated: for a known system with zero stored
capabilities the response body omits the `total` field (`total = none`),
while the claim requires `total` to be present for every known system. -/
theorem empty_system_missing_total :
    getSystemPermissions c7Db "u1" "s1" =
      .okBody ⟨"u1", "s1", "Sys", [], [], none⟩ := by decide

/-- Witness for C7's amended theorem at concrete inputs: the unknown-system
branch and the with-capabilities branch (where `total` is present). -/
theorem system_permissions_response_shape_witness :
    getSystemPermissions c7Db "u1" "nosuch" = .notFound ∧
    ∃ b, getSystemPermissions c1Db "u1" "s1" = .okBody b ∧
      b.userId = "u1" ∧ b.systemId = "s1" ∧ b.systemName = "SysOne" ∧
      b.total = some b.functionKeys.length := by
  constructor
  · exact (system_permissions_response_shape c7Db "u1" "nosuch").1 (by decide)
  · obtain ⟨b, h1, h2, h3, h4, _, h6⟩ :=
      (system_permissions_response_shape c1Db "u1" "s1").2 ⟨"s1", "SysOne", "", "", true⟩
        (by decide)
    exact ⟨b, h1, h2, h3, h4, h6 (by decide)⟩

/-! ## Claims about the client-side sync reconciler -/

/-- C4 (amended): when the manifest file exists and its content hash equals
the recorded `lastSyncHash`, `syncPermissions` makes no network call and
returns success — with no summary at all (the skip path's `SyncResult`
carries no `summary` field). -/
theorem hash_skip_noop (env : SyncEnv) (h : String)
    (hex : env.fileExists = true) (hh : generateHash env.fileContent = h) :
    syncPermissions env h = ⟨⟨true, none, none⟩, 0, h⟩ := by
  unfold syncPermissions
  rw [hex]
  simp [hh]

/-- Witness for C4's amended theorem at a concrete environment. -/
theorem hash_skip_noop_witness :
    syncPermissions c4Env "0" = ⟨⟨true, none, none⟩, 0, "0"⟩ :=
  hash_skip_noop c4Env "0" rfl (by decide)

/-- Counterexample for C4 as stated: at an environment whose hash matches
the recorded one, the call succeeds with zero network calls but its result
carries no summary (`summary = none`), so no `unchanged = 0, removed = 0`
summary is reported. -/
theorem hash_skip_no_summary :
    generateHash c4Env.fileContent = "0" ∧
    (syncPermissions c4Env "0").networkCalls = 0 ∧
    (syncPermissions c4Env "0").result.success = true ∧
    (syncPermissions c4Env "0").result.summary = none := by decide

theorem syncPermissions_validation (env : SyncEnv) (h : String)
    (hval : env.fileExists = false ∨
      (generateHash env.fileContent ≠ h ∧ manifestInvalid env.parsed = true)) :
    (syncPermissions env h).result.success = false ∧
    (syncPermissions env h).networkCalls = 0 := by
  unfold syncPermissions
  rcases hval with hex | ⟨hh, hinv⟩
  · rw [hex]
    simp
  · have hb : (generateHash env.fileContent == h) = false := by
      simpa using hh
    cases hfe : env.fileExists with
    | false => simp
    | true =>
      simp only [hfe, Bool.not_true, Bool.false_eq_true, if_false, hb]
      cases hp : env.parsed with
      | none => simp
      | some m =>
        rw [hp] at hinv
        cases hsi : m.systemId with
        | none => simp [hsi]
        | some sidv =>
          cases hfu : m.functions with
          | none => simp [hsi, hfu]
          | some fl =>
            exfalso
            simp [manifestInvalid, hsi, hfu] at hinv

theorem syncAttempts_fail (env : SyncEnv) (h : String)
    (hs : (syncPermissions env h).result.success = false)
    (hc : (syncPermissions env h).networkCalls = 0) :
    ∀ n, syncAttempts env h n =
      ⟨⟨false, none, some "Máximo de tentativas excedido"⟩, n, 0⟩ := by
  intro n
  induction n with
  | zero => rfl
  | succ k ih =>
    rw [syncAttempts]
    simp [hs, hc, ih]

/-- C5 (amended): a missing or malformed manifest makes every attempt fail
locally with zero network calls, but `syncWithRetry` still performs all 3
attempts (it retries the validation failure) before reporting the generic
maximum-attempts failure. -/
theorem validation_failure_no_network (env : SyncEnv) (h : String)
    (hval : env.fileExists = false ∨
      (generateHash env.fileContent ≠ h ∧ manifestInvalid env.parsed = true)) :
    (syncPermissions env h).result.success = false ∧
    (syncPermissions env h).networkCalls = 0 ∧
    syncWithRetry env h =
      ⟨⟨false, none, some "Máximo de tentativas excedido"⟩, 3, 0⟩ := by
  obtain ⟨h1, h2⟩ := syncPermissions_validation env h hval
  exact ⟨h1, h2, syncAttempts_fail env h h1 h2 3⟩

/-- Counterexample for C5 as stated: with a missing manifest file the
reconciler performs 3 attempts — it does retry the validation failure —
although no attempt makes a network call. -/
theorem validation_failure_is_retried :
    (syncWithRetry c5Env "").attempts = 3 ∧
    (syncWithRetry c5Env "").networkCalls = 0 ∧
    (syncWithRetry c5Env "").result.success = false := by decide

/-- Witness for C5's amended theorem at the concrete environment. -/
theorem validation_failure_no_network_witness :
    (syncPermissions c5Env "").result.success = false ∧
    (syncPermissions c5Env "").networkCalls = 0 ∧
    syncWithRetry c5Env "" =
      ⟨⟨false, none, some "Máximo de tentativas excedido"⟩, 3, 0⟩ :=
  validation_failure_no_network c5Env "" (Or.inl rfl)

theorem updFun_id (systemId : String) (l : List ManifestFunc) (g : Func) :
    (updFun systemId l g).id = g.id := by
  unfold updFun
  cases l.find? (fun mf => g.id == mkFuncId systemId mf.key) <;> rfl

theorem jsHas_allProfStep (db : Db) (m : List (String × PermEntry))
    (pf : ProfileFunction) (k : String) :
    jsHas (allProfStep db m pf) k = true ↔
      (profWrites db pf = true ∧ k = pf.functionId) ∨ jsHas m k = true := by
  unfold allProfStep profWrites
  cases hf : db.functions.find? (fun f => f.id == pf.functionId) with
  | none => simp
  | some f =>
    have hfid : f.id = pf.functionId := by
      simpa using List.find?_some hf
    cases hg : pf.granted with
    | false => simp
    | true =>
      cases hs : db.systems.find? (fun s => s.id == f.systemId) with
      | none => simp [hs]
      | some s =>
        simp only [hs, if_true, Option.isSome_some, Bool.true_and, true_and]
        by_cases hk : k = f.id
        · subst hk
          simp [jsHas_jsSet_self, hfid]
        · rw [jsHas_jsSet_ne _ _ _ _ hk]
          constructor
          · intro hm
            exact Or.inr hm
          · intro hor
            rcases hor with hke | hm
            · exact absurd (Eq.trans hke (Eq.symm hfid)) hk
            · exact hm

theorem jsHas_foldl_allProfStep (db : Db) (l : List ProfileFunction) :
    ∀ (m : List (String × PermEntry)) (k : String),
      jsHas (l.foldl (allProfStep db) m) k = true ↔
        (∃ pf ∈ l, profWrites db pf = true ∧ k = pf.functionId) ∨ jsHas m k = true := by
  induction l with
  | nil =>
    intro m k
    simp
  | cons x t ih =>
    intro m k
    rw [List.foldl_cons, ih, jsHas_allProfStep]
    constructor
    · rintro (⟨pf, hpf, hw⟩ | (hx | hm))
      · exact Or.inl ⟨pf, List.mem_cons_of_mem _ hpf, hw⟩
      · exact Or.inl ⟨x, List.mem_cons_self _ _, hx⟩
      · exact Or.inr hm
    · rintro (⟨pf, hpf, hw⟩ | hm)
      · rcases List.mem_cons.mp hpf with heq | hmem
        · exact Or.inr (Or.inl (heq ▸ hw))
        · exact Or.inl ⟨pf, hmem, hw⟩
      · exact Or.inr (Or.inr hm)

theorem allProf_fold_invariant (db : Db) (l : List ProfileFunction) :
    ∀ (m : List (String × PermEntry)),
      (∀ p ∈ m, p.2.functionId = p.1 ∧ p.2.granted = true) →
      ∀ p ∈ l.foldl (allProfStep db) m, p.2.functionId = p.1 ∧ p.2.granted = true := by
  induction l with
  | nil =>
    intro m hm
    exact hm
  | cons x t ih =>
    intro m hm
    rw [List.foldl_cons]
    apply ih
    intro p hp
    unfold allProfStep at hp
    rcases hf : db.functions.find? (fun f => f.id == x.functionId) with _ | f
    · rw [hf] at hp
      exact hm p hp
    · rw [hf] at hp
      cases hg : x.granted with
      | false =>
        rw [hg] at hp
        simp only [Bool.false_eq_true, if_false] at hp
        exact hm p hp
      | true =>
        rw [hg] at hp
        simp only [if_true] at hp
        rcases hs : db.systems.find? (fun s => s.id == f.systemId) with _ | s
        · rw [hs] at hp
          exact hm p hp
        · rw [hs] at hp
          exact jsSet_forall hm ⟨rfl, rfl⟩ p hp

theorem mapBased_mem_iff (db : Db) (u : String)
    (hnov : ∀ o ∈ db.userFunctionOverrides, o.userId ≠ u)
    (hprof : ∀ up ∈ db.userProfiles, up.userId = u →
      ∃ p ∈ db.profiles, p.id = up.profileId)
    (fid : String) :
    (∃ e ∈ getUserPermissionsMapBased db u, e.functionId = fid) ↔
      (∃ up ∈ db.userProfiles, up.userId = u ∧ ∃ pf ∈ db.profileFunctions,
        pf.profileId = up.profileId ∧ profWrites db pf = true ∧ fid = pf.functionId) := by
  have hov : db.userFunctionOverrides.filter (fun o => o.userId == u) = [] := by
    rw [List.filter_eq_nil_iff]
    intro o ho
    simp [hnov o ho]
  unfold getUserPermissionsMapBased
  rw [hov]
  simp only [List.foldl_nil]
  set rows := (db.userProfiles.filter (fun up => up.userId == u)).flatMap (fun up =>
    match db.profiles.find? (fun p => p.id == up.profileId) with
    | some _ => db.profileFunctions.filter (fun pf => pf.profileId == up.profileId)
    | none => []) with hrows
  have hinv := allProf_fold_invariant db rows [] (by simp)
  constructor
  · rintro ⟨e, he, hefid⟩
    rw [List.mem_filter] at he
    obtain ⟨hemem, hegr⟩ := he
    rw [List.mem_map] at hemem
    obtain ⟨p, hp, hpe⟩ := hemem
    have hpinv := hinv p hp
    have hfidk : fid = p.1 := by
      rw [← hefid, ← hpe, hpinv.1]
    have hhas : jsHas (rows.foldl (allProfStep db) []) fid = true := by
      rw [jsHas_iff]
      exact ⟨p, hp, hfidk.symm⟩
    rw [jsHas_foldl_allProfStep] at hhas
    rcases hhas with ⟨pf, hpf, hw, hk⟩ | hbase
    · rw [hrows] at hpf
      rw [List.mem_flatMap] at hpf
      obtain ⟨up, hup, hpfin⟩ := hpf
      rw [List.mem_filter] at hup
      refine ⟨up, hup.1, by simpa using hup.2, pf, ?_, ?_, hw, hk⟩
      · rcases hfp : db.profiles.find? (fun p => p.id == up.profileId) with _ | pr
        · rw [hfp] at hpfin
          cases hpfin
        · rw [hfp] at hpfin
          exact (List.mem_filter.mp hpfin).1
      · rcases hfp : db.profiles.find? (fun p => p.id == up.profileId) with _ | pr
        · rw [hfp] at hpfin
          cases hpfin
        · rw [hfp] at hpfin
          simpa using (List.mem_filter.mp hpfin).2
    · simp [jsHas] at hbase
  · rintro ⟨up, hup, huid, pf, hpf, hpid, hw, hk⟩
    have hupf : up ∈ db.userProfiles.filter (fun up' => up'.userId == u) :=
      List.mem_filter.mpr ⟨hup, by simp [huid]⟩
    obtain ⟨pr, hpr, hprid⟩ := hprof up hup huid
    have hfp : (db.profiles.find? (fun p => p.id == up.profileId)).isSome = true := by
      rw [List.find?_isSome]
      exact ⟨pr, hpr, by simp [hprid]⟩
    have hpfrows : pf ∈ rows := by
      rw [hrows, List.mem_flatMap]
      refine ⟨up, hupf, ?_⟩
      rcases hfp2 : db.profiles.find? (fun p => p.id == up.profileId) with _ | pr2
      · rw [hfp2] at hfp
        cases hfp
      · rw [hfp2]
        exact List.mem_filter.mpr ⟨hpf, by simp [hpid]⟩
    have hhas : jsHas (rows.foldl (allProfStep db) []) fid = true := by
      rw [jsHas_foldl_allProfStep]
      exact Or.inl ⟨pf, hpfrows, hw, hk⟩
    rw [jsHas_iff] at hhas
    obtain ⟨p, hp, hpk⟩ := hhas
    have hpinv := hinv p hp
    refine ⟨p.2, ?_, ?_⟩
    · rw [List.mem_filter]
      refine ⟨List.mem_map.mpr ⟨p, hp, rfl⟩, by rw [hpinv.2]⟩
    · rw [hpinv.1, hpk]

theorem sql_mem_iff (db : Db) (u : String) (fid : String) :
    (∃ r ∈ getUserPermissionsSql db u, r.functionId = fid) ↔
      (∃ up ∈ db.userProfiles, up.userId = u ∧ ∃ pf ∈ db.profileFunctions,
        pf.profileId = up.profileId ∧ profWrites db pf = true ∧ fid = pf.functionId) := by
  unfold getUserPermissionsSql
  constructor
  · rintro ⟨r, hr, hrfid⟩
    rw [List.mem_flatMap] at hr
    obtain ⟨up, hup, hrin⟩ := hr
    rw [List.mem_filter] at hup
    rw [List.mem_filterMap] at hrin
    obtain ⟨pf, hpf, hpfr⟩ := hrin
    rw [List.mem_filter] at hpf
    have hpfcond := hpf.2
    simp only [Bool.and_eq_true, beq_iff_eq] at hpfcond
    cases hf : db.functions.find? (fun f => f.id == pf.functionId) with
    | none =>
      simp only [hf] at hpfr
      exact Option.noConfusion hpfr
    | some f =>
      simp only [hf] at hpfr
      cases hs : db.systems.find? (fun s => s.id == f.systemId) with
      | none =>
        simp only [hs] at hpfr
        exact Option.noConfusion hpfr
      | some s =>
        simp only [hs, Option.some.injEq] at hpfr
        have hfid : f.id = pf.functionId := by
          simpa using List.find?_some hf
        have hw : profWrites db pf = true := by
          unfold profWrites
          simp [hf, hs, hpfcond.2]
        refine ⟨up, hup.1, by simpa using hup.2, pf, hpf.1, hpfcond.1, hw, ?_⟩
        rw [← hrfid, ← hpfr]
        exact hfid
  · rintro ⟨up, hup, huid, pf, hpf, hpid, hw, hk⟩
    unfold profWrites at hw
    cases hf : db.functions.find? (fun f => f.id == pf.functionId) with
    | none =>
      rw [hf] at hw
      simp at hw
    | some f =>
      rw [hf] at hw
      simp only [Bool.and_eq_true] at hw
      cases hs : db.systems.find? (fun s => s.id == f.systemId) with
      | none =>
        rw [hs] at hw
        simp at hw
      | some s =>
        have hfid : f.id = pf.functionId := by
          simpa using List.find?_some hf
        refine ⟨⟨f.id, f.functionKey, f.name, f.category, f.endpoint, s.id, s.name⟩, ?_, ?_⟩
        · rw [List.mem_flatMap]
          refine ⟨up, List.mem_filter.mpr ⟨hup, by simp [huid]⟩, ?_⟩
          rw [List.mem_filterMap]
          refine ⟨pf, List.mem_filter.mpr ⟨hpf, by simp [hpid, hw.1]⟩, ?_⟩
          simp only [hf, hs]
        · rw [hk, ← hfid]

/-- C2 (amended): the map-based and the SQL-join implementations of
`GET /users/:userId/permissions` return the same set of granted function ids
for every user that has no capability-override rows, provided every profile
assignment of that user references an existing profile (the map-based code
dereferences `up.profile`). -/
theorem permissions_impls_agree_without_overrides (db : Db) (u : String)
    (hnov : ∀ o ∈ db.userFunctionOverrides, o.userId ≠ u)
    (hprof : ∀ up ∈ db.userProfiles, up.userId = u →
      ∃ p ∈ db.profiles, p.id = up.profileId) :
    ∀ fid, (∃ e ∈ getUserPermissionsMapBased db u, e.functionId = fid) ↔
      (∃ r ∈ getUserPermissionsSql db u, r.functionId = fid) :=
  fun fid => (mapBased_mem_iff db u hnov hprof fid).trans (sql_mem_iff db u fid).symm

/-- Counterexample for C2 as stated: the map-based implementation applies the
user's overrides and grants `s1-f1`, while the SQL-join implementation reads
only profile grants and returns nothing — the two endpoints disagree on this
database state. -/
theorem permissions_impls_differ :
    ("s1-f1" ∈ (getUserPermissionsMapBased c2Db "u1").map (fun e => e.functionId)) ∧
    ("s1-f1" ∉ (getUserPermissionsSql c2Db "u1").map (fun r => r.functionId)) := by
  decide

/-- Witness for C2's amended theorem at a concrete override-free database. -/
theorem permissions_impls_agree_witness :
    (∃ e ∈ getUserPermissionsMapBased c2AgreeDb "u1", e.functionId = "s1-f1") ↔
    (∃ r ∈ getUserPermissionsSql c2AgreeDb "u1", r.functionId = "s1-f1") :=
  permissions_impls_agree_without_overrides c2AgreeDb "u1" (by decide) (by decide) "s1-f1"
